import Mathlib

/-!
Verification of the event-planning backend's voice orchestrator and
cart/sponsorship logic (`voice_agent.py`, `shopping_agent.py`,
`tools/implementations.py`).

Python strings are modelled as `List Char`; Python floats that only ever
hold exact decimal values (prices, ratings, scores, durations) are
modelled as `ℚ`; Python ints as `ℤ`/`ℕ`.  Each definition mirrors one
source function and is named after it.
-/

/-! ## Python string primitives -/

/-- Python `str.lower()` on a character list (the source only lowercases
ASCII text). -/
def pyLower (s : List Char) : List Char := s.map Char.toLower

/-- Python substring containment `needle in hay`. -/
def containsSub (needle : List Char) : List Char → Bool
  | [] => needle.isEmpty
  | c :: rest => needle.isPrefixOf (c :: rest) || containsSub needle rest

/-- Python `str.strip()`: drop leading and trailing whitespace. -/
def pyStrip (s : List Char) : List Char :=
  (((s.dropWhile Char.isWhitespace).reverse.dropWhile Char.isWhitespace).reverse)

/-- Python `str.split()` with no separator: split on whitespace runs,
discarding empty tokens.  `cur` is the reversed current token. -/
def pySplitAux : List Char → List Char → List (List Char)
  | [], cur => if cur.isEmpty then [] else [cur.reverse]
  | c :: rest, cur =>
      if c.isWhitespace then
        if cur.isEmpty then pySplitAux rest [] else cur.reverse :: pySplitAux rest []
      else
        pySplitAux rest (c :: cur)

/-- Python `str.split()` with no separator. -/
def pySplit (s : List Char) : List (List Char) := pySplitAux s []

/-- Python `str.isdigit()` for ASCII text: non-empty and all digits. -/
def pyIsDigit (s : List Char) : Bool := !s.isEmpty && s.all Char.isDigit

/-- Python `int(s)` on a string of ASCII digits. -/
def pyParseNat (s : List Char) : ℕ :=
  s.foldl (fun n c => n * 10 + (c.toNat - '0'.toNat)) 0

/-- Decimal digit character for a value below ten. -/
def digitChar : ℕ → Char
  | 0 => '0' | 1 => '1' | 2 => '2' | 3 => '3' | 4 => '4'
  | 5 => '5' | 6 => '6' | 7 => '7' | 8 => '8' | 9 => '9'
  | _ => '?'

/-- Fuel-driven core of decimal rendering (structural recursion so that
the kernel can evaluate it). -/
def natToStrCore : ℕ → ℕ → List Char
  | 0, _ => []
  | _ + 1, 0 => []
  | fuel + 1, n + 1 =>
      natToStrCore fuel ((n + 1) / 10) ++ [digitChar ((n + 1) % 10)]

/-- Python `str(n)` for a non-negative integer: decimal rendering. -/
def natToStr (n : ℕ) : List Char :=
  if n = 0 then ['0'] else natToStrCore n n

/-- Python `' '.join(tokens)`. -/
def joinSpace : List (List Char) → List Char
  | [] => []
  | [t] => t
  | t :: rest => t ++ ' ' :: joinSpace rest

/-- Exact rational ceiling of `d / 4` computed without `Rat` division,
modelling `math.ceil(duration_hours / 4)` (`shopping_agent.py:151`).
Numerically equal to `⌈d / 4⌉`, see `ceilDiv4_eq`. -/
def ceilDiv4 (d : ℚ) : ℤ := -((-d.num) / (4 * (d.den : ℤ)))

theorem ceilDiv4_eq (d : ℚ) : ceilDiv4 d = ⌈d / 4⌉ := by
  have hden : ((4 * d.den : ℕ) : ℤ) = 4 * (d.den : ℤ) := by push_cast; ring
  have h1 : (-d.num) / (4 * (d.den : ℤ)) = ⌊((-d.num : ℤ) : ℚ) / ((4 * d.den : ℕ) : ℚ)⌋ := by
    rw [Rat.floor_intCast_div_natCast, hden]
  have hd0 : ((d.den : ℚ)) ≠ 0 := by
    exact_mod_cast d.den_nz
  have h2 : ((-d.num : ℤ) : ℚ) / ((4 * d.den : ℕ) : ℚ) = -(d / 4) := by
    push_cast
    conv_rhs => rw [← Rat.num_div_den d]
    rw [div_div, mul_comm ((d.den : ℚ)) 4, neg_div]
  rw [ceilDiv4, h1, h2, Int.floor_neg, neg_neg]

/-! ## QuantityInferencer (`shopping_agent.py`) -/

/-- Consumable keyword list from `_is_consumable` (`shopping_agent.py:525`). -/
def consumableKeywords : List (List Char) :=
  ["water".toList, "coffee".toList, "tea".toList, "soda".toList, "juice".toList,
   "drink".toList, "snack".toList, "chips".toList, "cookies".toList, "meal".toList,
   "lunch".toList, "dinner".toList, "breakfast".toList, "fruit".toList,
   "sandwich".toList]

/-- `_is_consumable(item_lower)` (`shopping_agent.py:525`): any keyword is a
substring of the lower-cased item name. -/
def isConsumable (itemLower : List Char) : Bool :=
  consumableKeywords.any (fun k => containsSub k itemLower)

/-- Per-person phrase list from `_infer_amount` (`shopping_agent.py:139`). -/
def perPersonPhrases : List (List Char) :=
  ["per person".toList, "per attendee".toList, "per guest".toList,
   "each attendee".toList, "each person".toList]

/-- Whether the lower-cased item name carries an explicit per-person phrase. -/
def hasPerPersonPhrase (itemLower : List Char) : Bool :=
  perPersonPhrases.any (fun p => containsSub p itemLower)

/-- `_infer_amount(item, attendees, duration_hours)` (`shopping_agent.py:130`).
`attendees = none` models Python `None`; Python treats `0` and `0.0` as
falsy, hence the explicit zero tests. -/
def inferAmount (item : List Char) (attendees : Option ℕ) (durationHours : Option ℚ) : ℤ :=
  match attendees with
  | none => 1
  | some a =>
    if a = 0 then 1
    else
      let lower := pyLower item
      let consumable := isConsumable lower
      let perPerson := hasPerPersonPhrase lower
      let base : ℤ := if perPerson || consumable then (a : ℤ) else 1
      match durationHours with
      | none => base
      | some d =>
          if consumable && !(d == 0) then base * max 1 (ceilDiv4 d) else base

/-! ## extract_yes_no (`voice_agent.py:147`) -/

/-- Positive keyword list from `extract_yes_no` (`voice_agent.py:152`). -/
def posKeywords : List (List Char) :=
  ["yes".toList, "yeah".toList, "yep".toList, "sure".toList, "correct".toList,
   "right".toList, "ok".toList, "okay".toList]

/-- Negative keyword list from `extract_yes_no` (`voice_agent.py:156`). -/
def negKeywords : List (List Char) :=
  ["no".toList, "nope".toList, "nah".toList, "incorrect".toList, "wrong".toList]

/-- `extract_yes_no(user_input)` (`voice_agent.py:147`): lower-case and strip,
then check positive substrings before negative ones. -/
def extractYesNo (input : List Char) : Option Bool :=
  let text := pyStrip (pyLower input)
  if posKeywords.any (fun w => containsSub w text) then some true
  else if negKeywords.any (fun w => containsSub w text) then some false
  else none

example : extractYesNo "incorrect".toList = some true := by decide
example : inferAmount "Bottled Water".toList (some 50) (some 8) = 100 := by decide
example : inferAmount "Folding Table".toList (some 50) (some 8) = 1 := by decide

/-! ## CandidateSelector (`shopping_agent.py:546-579`) -/

/-- One parsed search hit, the fields of dataclass `_Candidate`
(`shopping_agent.py:546`): price, delivery days, review rating and the
original result rank `index`.  The wrapped `CartItemDetail` carries the
same price/delivery/rating values, so picks are modelled at the
candidate level. -/
structure Candidate where
  price : ℚ
  deliveryDays : ℤ
  rating : ℚ
  index : ℕ
deriving DecidableEq, Repr

/-- The four picks of `_select_cart_item` (`shopping_agent.py:574`),
each holding the chosen candidate. -/
structure CartItem where
  recommended : Candidate
  cheapest : Candidate
  bestRating : Candidate
  fastest : Candidate
deriving DecidableEq, Repr

/-- Python `min(candidates, key=k)` over the non-empty list `x :: l`:
the first element attaining the minimal key. -/
def minByKey {α K : Type} [LinearOrder K] (key : α → K) (x : α) (l : List α) : α :=
  l.foldl (fun acc c => if key c < key acc then c else acc) x

theorem minByKey_mem {α K : Type} [LinearOrder K] (key : α → K) (x : α) (l : List α) :
    minByKey key x l ∈ x :: l := by
  induction l generalizing x with
  | nil => simp [minByKey]
  | cons c t ih =>
      have h := ih (if key c < key x then c else x)
      simp only [minByKey, List.foldl_cons] at h ⊢
      by_cases hc : key c < key x
      · rw [if_pos hc] at h ⊢
        rcases List.mem_cons.1 h with h1 | h1
        · exact List.mem_cons.2 (Or.inr (List.mem_cons.2 (Or.inl h1)))
        · exact List.mem_cons.2 (Or.inr (List.mem_cons.2 (Or.inr h1)))
      · rw [if_neg hc] at h ⊢
        rcases List.mem_cons.1 h with h1 | h1
        · exact List.mem_cons.2 (Or.inl h1)
        · exact List.mem_cons.2 (Or.inr (List.mem_cons.2 (Or.inr h1)))

theorem minByKey_le {α K : Type} [LinearOrder K] (key : α → K) (x : α) (l : List α) :
    ∀ c ∈ x :: l, key (minByKey key x l) ≤ key c := by
  induction l generalizing x with
  | nil =>
      intro c hc
      simp at hc
      simp [minByKey, hc]
  | cons c t ih =>
      intro d hd
      set y := if key c < key x then c else x with hy
      have hyx : key y ≤ key x := by
        by_cases h : key c < key x <;> simp [hy, h]
        exact le_of_lt h
      have hyc : key y ≤ key c := by
        by_cases h : key c < key x <;> simp [hy, h]
        exact le_of_not_lt h
      have hres : minByKey key x (c :: t) = minByKey key y t := by
        simp [minByKey, hy]
      have ihy := ih y
      rcases List.mem_cons.1 hd with h1 | h1
      · subst h1
        exact hres ▸ le_trans (ihy y (List.mem_cons_self y t)) hyx
      · rcases List.mem_cons.1 h1 with h2 | h2
        · subst h2
          exact hres ▸ le_trans (ihy y (List.mem_cons_self y t)) hyc
        · exact hres ▸ ihy d (List.mem_cons.2 (Or.inr h2))

/-- First components of lexicographic pairs are monotone. -/
theorem fst_le_of_lex_le {α β : Type} [LinearOrder α] [LinearOrder β] {p q : α × β}
    (h : toLex p ≤ toLex q) : p.1 ≤ q.1 := by
  rcases (Prod.Lex.le_iff p q).1 h with h1 | ⟨h1, _⟩
  · exact le_of_lt h1
  · exact le_of_eq h1

/-- Sort key of `cheapest`: `(price, index)` (`shopping_agent.py:556`). -/
def cheapKey (c : Candidate) : Lex (ℚ × ℕ) := toLex (c.price, c.index)

/-- Sort key of `fastest`: `(delivery_days, price, index)` (`shopping_agent.py:557`). -/
def fastKey (c : Candidate) : Lex (ℤ × Lex (ℚ × ℕ)) :=
  toLex (c.deliveryDays, toLex (c.price, c.index))

/-- Sort key of `best_rating`: `(-rating, price, index)` (`shopping_agent.py:561`). -/
def ratingKey (c : Candidate) : Lex (ℚ × Lex (ℚ × ℕ)) :=
  toLex (-c.rating, toLex (c.price, c.index))

/-- The `counts` dictionary of `_select_cart_item` (`shopping_agent.py:566`):
how many of the three picks carry result rank `i`. -/
def pickCount (picks : List Candidate) (i : ℕ) : ℕ :=
  (picks.filter (fun p => p.index == i)).length

/-- Sort key of `recommended`: `(-count, price, index)` (`shopping_agent.py:569`). -/
def recKey (count : ℕ → ℕ) (c : Candidate) : Lex (ℤ × Lex (ℚ × ℕ)) :=
  toLex (-(count c.index : ℤ), toLex (c.price, c.index))

/-- `_select_cart_item(candidates)` (`shopping_agent.py:555`) over the
non-empty candidate list `x :: l`. -/
def selectCartItem (x : Candidate) (l : List Candidate) : CartItem :=
  let cheapest := minByKey cheapKey x l
  let fastest := minByKey fastKey x l
  let bestRating := minByKey ratingKey x l
  let count := pickCount [cheapest, fastest, bestRating]
  let recommended := minByKey (recKey count) x l
  ⟨recommended, cheapest, bestRating, fastest⟩

theorem selectCartItem_cheapest (x : Candidate) (l : List Candidate) :
    (selectCartItem x l).cheapest = minByKey cheapKey x l := rfl

theorem selectCartItem_fastest (x : Candidate) (l : List Candidate) :
    (selectCartItem x l).fastest = minByKey fastKey x l := rfl

theorem selectCartItem_bestRating (x : Candidate) (l : List Candidate) :
    (selectCartItem x l).bestRating = minByKey ratingKey x l := rfl

theorem selectCartItem_recommended (x : Candidate) (l : List Candidate) :
    (selectCartItem x l).recommended =
      minByKey
        (recKey (pickCount
          [minByKey cheapKey x l, minByKey fastKey x l, minByKey ratingKey x l]))
        x l := rfl

/-- C1.  On every non-empty candidate list the cheapest pick has minimal
price, the fastest pick minimal delivery days, the best-rating pick
maximal rating; each of the three picks belongs to the candidate list and
is the deterministic lexicographic minimiser of its tie-breaking key
`(price, rank)`, `(deliveryDays, price, rank)` and `(-rating, price, rank)`
respectively. -/
theorem c1_cart_pick_bounds (x : Candidate) (l : List Candidate) :
    (∀ c ∈ x :: l, (selectCartItem x l).cheapest.price ≤ c.price)
    ∧ (∀ c ∈ x :: l, (selectCartItem x l).fastest.deliveryDays ≤ c.deliveryDays)
    ∧ (∀ c ∈ x :: l, c.rating ≤ (selectCartItem x l).bestRating.rating)
    ∧ (∀ c ∈ x :: l, cheapKey (selectCartItem x l).cheapest ≤ cheapKey c)
    ∧ (∀ c ∈ x :: l, fastKey (selectCartItem x l).fastest ≤ fastKey c)
    ∧ (∀ c ∈ x :: l, ratingKey (selectCartItem x l).bestRating ≤ ratingKey c)
    ∧ (selectCartItem x l).cheapest ∈ x :: l
    ∧ (selectCartItem x l).fastest ∈ x :: l
    ∧ (selectCartItem x l).bestRating ∈ x :: l := by
  refine ⟨?_, ?_, ?_, ?_, ?_, ?_, ?_, ?_, ?_⟩
  · intro c hc
    exact fst_le_of_lex_le (minByKey_le cheapKey x l c hc)
  · intro c hc
    exact fst_le_of_lex_le (minByKey_le fastKey x l c hc)
  · intro c hc
    have h := fst_le_of_lex_le (minByKey_le ratingKey x l c hc)
    simpa [selectCartItem, ratingKey] using neg_le_neg_iff.1 h
  · intro c hc
    exact minByKey_le cheapKey x l c hc
  · intro c hc
    exact minByKey_le fastKey x l c hc
  · intro c hc
    exact minByKey_le ratingKey x l c hc
  · exact minByKey_mem cheapKey x l
  · exact minByKey_mem fastKey x l
  · exact minByKey_mem ratingKey x l

/-- Witness for C1 at a concrete two-candidate list. -/
theorem c1_cart_pick_bounds_witness :
    (selectCartItem ⟨3, 2, 1, 0⟩ [⟨2, 1, 5, 1⟩]).cheapest.price ≤ 3 :=
  (c1_cart_pick_bounds ⟨3, 2, 1, 0⟩ [⟨2, 1, 5, 1⟩]).1 ⟨3, 2, 1, 0⟩ (by simp)

/-- The three picks `[cheapest, fastest, best_rating]` whose result ranks
feed the `counts` dictionary (`shopping_agent.py:567`). -/
def selectedPicks (x : Candidate) (l : List Candidate) : List Candidate :=
  [(selectCartItem x l).cheapest, (selectCartItem x l).fastest,
   (selectCartItem x l).bestRating]

theorem pickCount_nil (i : ℕ) : pickCount [] i = 0 := rfl

theorem pickCount_cons (p : Candidate) (ps : List Candidate) (i : ℕ) :
    pickCount (p :: ps) i = (if p.index = i then 1 else 0) + pickCount ps i := by
  by_cases h : p.index = i <;>
    simp [pickCount, List.filter_cons, h, Nat.add_comm]

/-- Equal `recKey`s force equal result ranks. -/
theorem recKey_inj_index (count : ℕ → ℕ) {a b : Candidate}
    (h : recKey count a = recKey count b) : a.index = b.index := by
  have h2 := toLex.injective h
  have h3 := congrArg Prod.snd h2
  have h4 := toLex.injective h3
  exact congrArg Prod.snd h4

/-- C3.  With pairwise distinct result ranks (as produced by `enumerate`
in `build_cart`), the recommended pick is always one of the three picks
(never a fourth candidate), lies in the candidate list, is chosen most
frequently among the three picks with ties broken by `(price, rank)`,
and equals the cheapest pick whenever the three picks are pairwise
distinct. -/
theorem c3_recommended_consensus (x : Candidate) (l : List Candidate)
    (hnd : ((x :: l).map Candidate.index).Nodup) :
    ((selectCartItem x l).recommended = (selectCartItem x l).cheapest
      ∨ (selectCartItem x l).recommended = (selectCartItem x l).fastest
      ∨ (selectCartItem x l).recommended = (selectCartItem x l).bestRating)
    ∧ (selectCartItem x l).recommended ∈ x :: l
    ∧ (∀ c ∈ x :: l,
        pickCount (selectedPicks x l) c.index
          ≤ pickCount (selectedPicks x l) (selectCartItem x l).recommended.index)
    ∧ (∀ c ∈ x :: l,
        recKey (pickCount (selectedPicks x l)) (selectCartItem x l).recommended
          ≤ recKey (pickCount (selectedPicks x l)) c)
    ∧ ((selectCartItem x l).cheapest ≠ (selectCartItem x l).fastest →
       (selectCartItem x l).cheapest ≠ (selectCartItem x l).bestRating →
       (selectCartItem x l).fastest ≠ (selectCartItem x l).bestRating →
       (selectCartItem x l).recommended = (selectCartItem x l).cheapest) := by
  have inj : ∀ a ∈ x :: l, ∀ b ∈ x :: l, a.index = b.index → a = b := by
    intro a ha b hb hab
    exact List.inj_on_of_nodup_map hnd ha hb hab
  set ch := minByKey cheapKey x l with hch
  set fa := minByKey fastKey x l with hfa
  set br := minByKey ratingKey x l with hbr
  set cnt := pickCount [ch, fa, br] with hcnt
  set rec := minByKey (recKey cnt) x l with hrec
  have hsel_ch : (selectCartItem x l).cheapest = ch := rfl
  have hsel_fa : (selectCartItem x l).fastest = fa := rfl
  have hsel_br : (selectCartItem x l).bestRating = br := rfl
  have hsel_rec : (selectCartItem x l).recommended = rec := rfl
  have hpicks : selectedPicks x l = [ch, fa, br] := rfl
  have hch_mem : ch ∈ x :: l := minByKey_mem cheapKey x l
  have hfa_mem : fa ∈ x :: l := minByKey_mem fastKey x l
  have hbr_mem : br ∈ x :: l := minByKey_mem ratingKey x l
  have hrec_mem : rec ∈ x :: l := minByKey_mem (recKey cnt) x l
  have hrec_min : ∀ c ∈ x :: l, recKey cnt rec ≤ recKey cnt c :=
    minByKey_le (recKey cnt) x l
  have hch_min : ∀ c ∈ x :: l, cheapKey ch ≤ cheapKey c := minByKey_le cheapKey x l
  -- counts are monotone along `recKey` minimality
  have hcount_le : ∀ c ∈ x :: l, cnt c.index ≤ cnt rec.index := by
    intro c hc
    have h := fst_le_of_lex_le (hrec_min c hc)
    have h2 : -((cnt rec.index : ℤ)) ≤ -((cnt c.index : ℤ)) := h
    have h3 : ((cnt c.index : ℤ)) ≤ ((cnt rec.index : ℤ)) := by linarith
    exact_mod_cast h3
  -- the cheapest pick always has positive count
  have hch_cnt_pos : 1 ≤ cnt ch.index := by
    have h := pickCount_cons ch [fa, br] ch.index
    rw [if_pos rfl] at h
    rw [hcnt, h]
    omega
  have hrec_cnt_pos : 1 ≤ cnt rec.index :=
    le_trans hch_cnt_pos (hcount_le ch hch_mem)
  -- therefore some pick shares the recommended pick's rank
  have hpick_eq : rec = ch ∨ rec = fa ∨ rec = br := by
    have hlen : 0 < (List.filter (fun p => p.index == rec.index) [ch, fa, br]).length := by
      simpa [pickCount] using hrec_cnt_pos
    obtain ⟨p, hp⟩ := List.exists_mem_of_length_pos hlen
    have hp_mem : p ∈ [ch, fa, br] := (List.mem_filter.1 hp).1
    have hp_idx : p.index = rec.index := by
      have := (List.mem_filter.1 hp).2
      simpa using this
    have hp_in : p ∈ x :: l := by
      rcases (by simpa using hp_mem : p = ch ∨ p = fa ∨ p = br) with h | h | h
      · exact h ▸ hch_mem
      · exact h ▸ hfa_mem
      · exact h ▸ hbr_mem
    have : rec = p := inj rec hrec_mem p hp_in hp_idx.symm
    rcases (by simpa using hp_mem : p = ch ∨ p = fa ∨ p = br) with h | h | h
    · exact Or.inl (this.trans h)
    · exact Or.inr (Or.inl (this.trans h))
    · exact Or.inr (Or.inr (this.trans h))
  refine ⟨?_, ?_, ?_, ?_, ?_⟩
  · rw [hsel_rec, hsel_ch, hsel_fa, hsel_br]; exact hpick_eq
  · rw [hsel_rec]; exact hrec_mem
  · intro c hc
    rw [hpicks, hsel_rec]
    exact hcount_le c hc
  · intro c hc
    rw [hpicks, hsel_rec]
    exact hrec_min c hc
  · rw [hsel_ch, hsel_fa, hsel_br, hsel_rec]
    intro hne1 hne2 hne3
    -- pairwise distinct picks have pairwise distinct ranks
    have hidx1 : ch.index ≠ fa.index := fun h => hne1 (inj ch hch_mem fa hfa_mem h)
    have hidx2 : ch.index ≠ br.index := fun h => hne2 (inj ch hch_mem br hbr_mem h)
    have hidx3 : fa.index ≠ br.index := fun h => hne3 (inj fa hfa_mem br hbr_mem h)
    -- every rank is hit by at most one pick
    have hcnt_le_one : ∀ i, cnt i ≤ 1 := by
      intro i
      rw [hcnt, pickCount_cons, pickCount_cons, pickCount_cons, pickCount_nil]
      by_cases h1 : ch.index = i <;> by_cases h2 : fa.index = i <;>
        by_cases h3 : br.index = i
      · exact absurd (h1.trans h2.symm) hidx1
      · exact absurd (h1.trans h2.symm) hidx1
      · exact absurd (h1.trans h3.symm) hidx2
      · simp [h1, h2, h3]
      · exact absurd (h2.trans h3.symm) hidx3
      · simp [h1, h2, h3]
      · simp [h1, h2, h3]
      · simp [h1, h2, h3]
    have hch_cnt_one : cnt ch.index = 1 :=
      le_antisymm (hcnt_le_one ch.index) hch_cnt_pos
    -- the cheapest pick also minimises the recommendation key
    have hch_reckey_min : ∀ c ∈ x :: l, recKey cnt ch ≤ recKey cnt c := by
      intro c hc
      rcases Nat.lt_or_ge (cnt c.index) 1 with hc0 | hc1
      · have hc0 : cnt c.index = 0 := Nat.lt_one_iff.1 hc0
        refine (Prod.Lex.le_iff _ _).2 (Or.inl ?_)
        simp only [hch_cnt_one, hc0]
        norm_num
      · have hc1 : cnt c.index = 1 := le_antisymm (hcnt_le_one c.index) hc1
        refine (Prod.Lex.le_iff _ _).2 (Or.inr ⟨?_, ?_⟩)
        · simp only [hch_cnt_one, hc1]
        · exact hch_min c hc
    have hkey_eq : recKey cnt rec = recKey cnt ch :=
      le_antisymm (hrec_min ch hch_mem) (hch_reckey_min rec hrec_mem)
    exact inj rec hrec_mem ch hch_mem (recKey_inj_index cnt hkey_eq)

/-- Witness for C3 at a concrete two-candidate list with distinct ranks. -/
theorem c3_recommended_consensus_witness :
    (selectCartItem ⟨3, 2, 1, 0⟩ [⟨2, 1, 5, 1⟩]).recommended ∈
      [(⟨3, 2, 1, 0⟩ : Candidate), ⟨2, 1, 5, 1⟩] :=
  (c3_recommended_consensus ⟨3, 2, 1, 0⟩ [⟨2, 1, 5, 1⟩] (by decide)).2.1

/-! ## SponsorshipNegotiator forced rejection (`shopping_agent.py:367-374`) -/

/-- One entry of an offer's `discountedItems` list. -/
structure DiscountEntry where
  item : String
  itemId : Option String
  percent : ℕ
deriving DecidableEq, Repr

/-- A resolved retailer offer as consumed by `stream_sponsorship_offers`
(the parsed JSON dict of `check_retailer_sponsorship` or an error
placeholder). -/
structure Offer where
  retailer : String
  status : String
  reason : String
  discountPercent : Option ℤ
  discountedItems : List DiscountEntry
deriving DecidableEq, Repr

/-- The fixed reason installed by the forced rejection
(`shopping_agent.py:372`). -/
def budgetCommittedReason : String :=
  "Sponsorship budget already committed for this event."

/-- The forced-rejection correction of `stream_sponsorship_offers`
(`shopping_agent.py:367-374`): when the batch is non-empty and every
resolved offer is `approved`, the first offer is rewritten to `rejected`
with the fixed reason and cleared discount fields.  The subsequent
start/end drip-feed (`shopping_agent.py:377-391`) yields exactly this
list in the input mapping's iteration order, so the corrected list is
the stream's offer content. -/
def forceRejection (offers : List Offer) : List Offer :=
  match offers with
  | [] => []
  | o :: rest =>
      if (o :: rest).all (fun x => x.status == "approved") then
        { o with status := "rejected",
                 reason := budgetCommittedReason,
                 discountPercent := none,
                 discountedItems := [] } :: rest
      else o :: rest

/-- C2.  In a non-empty batch in which every resolved offer is approved,
the streamed output rejects exactly one offer; it is the first offer in
the input iteration order, keeps its retailer, carries the fixed
budget-committed reason, and has its discount fields cleared.  A batch
containing any raw rejection passes through unmodified. -/
theorem c2_forced_rejection_invariant :
    (∀ (o : Offer) (rest : List Offer),
      (∀ x ∈ o :: rest, x.status = "approved") →
        forceRejection (o :: rest)
            = { o with status := "rejected", reason := budgetCommittedReason,
                       discountPercent := none, discountedItems := [] } :: rest
          ∧ (forceRejection (o :: rest)).countP (fun x => x.status == "rejected") = 1
          ∧ (forceRejection (o :: rest)).head?.map Offer.retailer = some o.retailer)
    ∧ (∀ offers : List Offer, (∃ x ∈ offers, x.status ≠ "approved") →
        forceRejection offers = offers) := by
  constructor
  · intro o rest h
    have hall : ((o :: rest).all (fun x => x.status == "approved")) = true := by
      rw [List.all_eq_true]
      intro x hx
      simpa using h x hx
    have heq : forceRejection (o :: rest)
        = { o with status := "rejected", reason := budgetCommittedReason,
                   discountPercent := none, discountedItems := [] } :: rest := by
      simp [forceRejection, hall]
    refine ⟨heq, ?_, ?_⟩
    · rw [heq, List.countP_cons]
      have hrest : rest.countP (fun x => x.status == "rejected") = 0 := by
        rw [List.countP_eq_zero]
        intro x hx
        have := h x (List.mem_cons.2 (Or.inr hx))
        simp [this]
      simp [hrest]
    · rw [heq]
      rfl
  · intro offers hex
    obtain ⟨x, hx, hxs⟩ := hex
    cases offers with
    | nil => cases hx
    | cons o rest =>
        have hall : ((o :: rest).all (fun y => y.status == "approved")) = false := by
          apply Bool.eq_false_iff.2
          intro htrue
          exact hxs (by simpa using List.all_eq_true.1 htrue x hx)
        simp [forceRejection, hall]

/-- Witness for C2: a two-retailer batch approved by the raw simulation
ends with exactly one rejection. -/
theorem c2_forced_rejection_witness :
    (forceRejection
        [⟨"RetailA", "approved", "fits our goals", some 10, []⟩,
         ⟨"RetailB", "approved", "seasonal demand", some 5, []⟩]).countP
      (fun x => x.status == "rejected") = 1 :=
  (c2_forced_rejection_invariant.1
      ⟨"RetailA", "approved", "fits our goals", some 10, []⟩
      [⟨"RetailB", "approved", "seasonal demand", some 5, []⟩]
      (by decide)).2.1

/-! ## FuzzyMatcher (`voice_agent.py:113-145`) -/

/-- Descending-score comparison used to model Python's stable
`list.sort(key=lambda x: x[1], reverse=True)`: `orderedInsert` places a
new element before the first existing element it relates to, which for
this relation reproduces the stable descending order exactly. -/
def scoreGe (a b : List Char × ℚ) : Prop := b.2 ≤ a.2

instance : DecidableRel scoreGe :=
  fun a b => inferInstanceAs (Decidable (b.2 ≤ a.2))

instance : IsTotal (List Char × ℚ) scoreGe :=
  ⟨fun a b => le_total b.2 a.2⟩

instance : IsTrans (List Char × ℚ) scoreGe :=
  ⟨fun _ _ _ h1 h2 => le_trans h2 h1⟩

/-- The score a candidate receives in `fuzzy_match_categories`
(`voice_agent.py:128-139`): `100` on case-insensitive substring
containment, otherwise the external `fuzz.token_set_ratio` value `tsr`. -/
def matchScore (tsr : List Char → List Char → ℚ)
    (userInput category : List Char) : ℚ :=
  if containsSub (pyLower category) (pyLower userInput) then 100
  else tsr userInput category

/-- `fuzzy_match_categories(user_input, categories)` (`voice_agent.py:113`).
The external `rapidfuzz` scorer is the parameter `tsr`. -/
def fuzzyMatchCategories (tsr : List Char → List Char → ℚ)
    (userInput : List Char) (categories : List (List Char)) :
    List (List Char × ℚ) :=
  if categories.isEmpty then []
  else
    let matched := categories.filterMap (fun category =>
      if containsSub (pyLower category) (pyLower userInput) then
        some (category, 100)
      else
        let score := tsr userInput category
        if 50 < score then some (category, score) else none)
    matched.insertionSort scoreGe

/-- C9.  The fuzzy matcher returns a list sorted by descending score
containing exactly the candidates whose score exceeds 50, where a
substring hit scores 100 and every other candidate its token-set
similarity; an empty candidate list yields an empty result. -/
theorem c9_fuzzy_match_contract (tsr : List Char → List Char → ℚ)
    (userInput : List Char) (categories : List (List Char)) :
    (categories = [] → fuzzyMatchCategories tsr userInput categories = [])
    ∧ (fuzzyMatchCategories tsr userInput categories).Pairwise
        (fun a b => b.2 ≤ a.2)
    ∧ (∀ cs : List Char × ℚ,
        cs ∈ fuzzyMatchCategories tsr userInput categories ↔
          cs.1 ∈ categories ∧ cs.2 = matchScore tsr userInput cs.1 ∧ 50 < cs.2) := by
  refine ⟨?_, ?_, ?_⟩
  · intro h
    simp [fuzzyMatchCategories, h]
  · by_cases h : categories.isEmpty
    · simp [fuzzyMatchCategories, h]
    · have hs := List.sorted_insertionSort scoreGe
        (categories.filterMap (fun category =>
          if containsSub (pyLower category) (pyLower userInput) then
            some (category, 100)
          else
            let score := tsr userInput category
            if 50 < score then some (category, score) else none))
      simp only [fuzzyMatchCategories, h, if_neg h]
      exact hs
  · intro cs
    have hperm : ∀ m : List (List Char × ℚ),
        cs ∈ m.insertionSort scoreGe ↔ cs ∈ m :=
      fun m => (List.perm_insertionSort scoreGe m).mem_iff
    constructor
    · intro hmem
      have hm : cs ∈ categories.filterMap (fun category =>
          if containsSub (pyLower category) (pyLower userInput) then
            some (category, 100)
          else
            let score := tsr userInput category
            if 50 < score then some (category, score) else none) := by
        by_cases h : categories.isEmpty
        · exfalso
          rw [List.isEmpty_iff.1 h] at hmem
          simp [fuzzyMatchCategories] at hmem
        · rw [fuzzyMatchCategories, if_neg h] at hmem
          exact (hperm _).1 hmem
      obtain ⟨a, ha, hfa⟩ := List.mem_filterMap.1 hm
      by_cases hsub : containsSub (pyLower a) (pyLower userInput)
      · rw [if_pos hsub] at hfa
        obtain ⟨h1, h2⟩ := Prod.mk.injEq .. ▸ Option.some.injEq .. ▸ hfa
        refine ⟨?_, ?_, ?_⟩
        · rw [← h1]; exact ha
        · rw [← h1, ← h2, matchScore, if_pos hsub]
        · rw [← h2]; norm_num
      · rw [if_neg hsub] at hfa
        simp only at hfa
        by_cases hsc : (50 : ℚ) < tsr userInput a
        · rw [if_pos hsc] at hfa
          obtain ⟨h1, h2⟩ := Prod.mk.injEq .. ▸ Option.some.injEq .. ▸ hfa
          subst h1
          refine ⟨ha, ?_, ?_⟩
          · rw [← h2, matchScore, if_neg hsub]
          · rw [← h2]; exact hsc
        · rw [if_neg hsc] at hfa
          cases hfa
    · rintro ⟨h1, h2, h3⟩
      have hne : ¬categories.isEmpty := by
        intro h
        rw [List.isEmpty_iff.1 h] at h1
        cases h1
      rw [fuzzyMatchCategories, if_neg hne]
      rw [hperm]
      apply List.mem_filterMap.2
      refine ⟨cs.1, h1, ?_⟩
      by_cases hsub : containsSub (pyLower cs.1) (pyLower userInput)
      · rw [if_pos hsub]
        rw [matchScore, if_pos hsub] at h2
        rw [← h2]
      · rw [if_neg hsub]
        rw [matchScore, if_neg hsub] at h2
        simp only
        rw [if_pos (h2 ▸ h3), ← h2]

/-- Witness for C9: the empty-candidate edge case. -/
theorem c9_fuzzy_match_witness :
    fuzzyMatchCategories (fun _ _ => 0) "anything".toList [] = [] :=
  (c9_fuzzy_match_contract (fun _ _ => 0) "anything".toList []).1 rfl

/-! ## category_selection phase (`voice_agent.py:346-396`) -/

theorem isEmpty_eq_false_of_ne_nil {α : Type} {l : List α} (h : l ≠ []) :
    l.isEmpty = false := by
  cases l with
  | nil => exact absurd rfl h
  | cons a t => rfl

/-- Outcome of one `handle_category_selection_phase` turn: stay and
re-prompt, move to `category_confirmation` with pending categories, or
move to `subcategory_selection` with the categories selected.  The
recursive `start_subcategory_selection` continuation that runs after the
`select` transition is a separate phase entry action and outside this
decision. -/
inductive CatSelDecision where
  | stay : CatSelDecision
  | confirm : List (List Char) → CatSelDecision
  | select : List (List Char) → CatSelDecision
deriving DecidableEq, Repr

/-- `handle_category_selection_phase` (`voice_agent.py:346-396`): fuzzy
match the utterance, accept immediately when every match scores at least
95, ask for confirmation when some match exceeds 70, otherwise re-prompt. -/
def handleCategorySelection (tsr : List Char → List Char → ℚ)
    (userInput : List Char) (categories : List (List Char)) : CatSelDecision :=
  let ms := fuzzyMatchCategories tsr userInput categories
  if ms.isEmpty then .stay
  else
    let allPerfect := ms.all (fun p => decide ((95 : ℚ) ≤ p.2))
    let highConfidence := (ms.filter (fun p => decide ((70 : ℚ) < p.2))).map Prod.fst
    if allPerfect && !highConfidence.isEmpty then .select highConfidence
    else if !highConfidence.isEmpty then .confirm highConfidence
    else .stay

/-- C5.  With a non-empty fuzzy-match list: all scores at least 95 go
straight to `subcategory_selection` with the matched categories
selected (confirmation skipped); otherwise any score above 70 moves to
`category_confirmation` with exactly the high-confidence categories
pending; otherwise (including an empty match list) the machine stays in
`category_selection`. -/
theorem c5_category_selection_transitions (tsr : List Char → List Char → ℚ)
    (userInput : List Char) (categories : List (List Char)) :
    (fuzzyMatchCategories tsr userInput categories ≠ [] →
      (∀ p ∈ fuzzyMatchCategories tsr userInput categories, (95 : ℚ) ≤ p.2) →
      handleCategorySelection tsr userInput categories
        = .select ((fuzzyMatchCategories tsr userInput categories).map Prod.fst))
    ∧ (fuzzyMatchCategories tsr userInput categories ≠ [] →
      ¬(∀ p ∈ fuzzyMatchCategories tsr userInput categories, (95 : ℚ) ≤ p.2) →
      (∃ p ∈ fuzzyMatchCategories tsr userInput categories, (70 : ℚ) < p.2) →
      handleCategorySelection tsr userInput categories
        = .confirm (((fuzzyMatchCategories tsr userInput categories).filter
            (fun p => decide ((70 : ℚ) < p.2))).map Prod.fst))
    ∧ ((∀ p ∈ fuzzyMatchCategories tsr userInput categories, p.2 ≤ (70 : ℚ)) →
      handleCategorySelection tsr userInput categories = .stay)
    ∧ (fuzzyMatchCategories tsr userInput categories = [] →
      handleCategorySelection tsr userInput categories = .stay) := by
  refine ⟨?_, ?_, ?_, ?_⟩
  · intro hne hall
    have hemp := isEmpty_eq_false_of_ne_nil hne
    have hperf : (fuzzyMatchCategories tsr userInput categories).all
        (fun p => decide ((95 : ℚ) ≤ p.2)) = true :=
      List.all_eq_true.2 (fun p hp => decide_eq_true (hall p hp))
    have hfil : (fuzzyMatchCategories tsr userInput categories).filter
        (fun p => decide ((70 : ℚ) < p.2)) = fuzzyMatchCategories tsr userInput categories :=
      List.filter_eq_self.2
        (fun p hp => decide_eq_true (lt_of_lt_of_le (by norm_num) (hall p hp)))
    have hmap : (((fuzzyMatchCategories tsr userInput categories).filter
        (fun p => decide ((70 : ℚ) < p.2))).map Prod.fst).isEmpty = false := by
      rw [hfil]
      exact isEmpty_eq_false_of_ne_nil (fun h => hne (List.map_eq_nil_iff.1 h))
    simp [handleCategorySelection, hemp, hperf, hfil, hmap]
    intro h
    exact absurd h hne
  · intro hne hnall hex
    have hemp := isEmpty_eq_false_of_ne_nil hne
    have hperf : (fuzzyMatchCategories tsr userInput categories).all
        (fun p => decide ((95 : ℚ) ≤ p.2)) = false := by
      apply Bool.eq_false_iff.2
      intro htrue
      exact hnall fun p hp => of_decide_eq_true (List.all_eq_true.1 htrue p hp)
    have hfilne : (fuzzyMatchCategories tsr userInput categories).filter
        (fun p => decide ((70 : ℚ) < p.2)) ≠ [] := by
      obtain ⟨p, hp, h70⟩ := hex
      intro hnil
      have hmemf : p ∈ (fuzzyMatchCategories tsr userInput categories).filter
          (fun q => decide ((70 : ℚ) < q.2)) :=
        List.mem_filter.2 ⟨hp, decide_eq_true h70⟩
      rw [hnil] at hmemf
      cases hmemf
    have hmap : (((fuzzyMatchCategories tsr userInput categories).filter
        (fun p => decide ((70 : ℚ) < p.2))).map Prod.fst).isEmpty = false :=
      isEmpty_eq_false_of_ne_nil (fun h => hfilne (List.map_eq_nil_iff.1 h))
    simp [handleCategorySelection, hemp, hperf, hmap]
  · intro hall
    by_cases hM : fuzzyMatchCategories tsr userInput categories = []
    · simp [handleCategorySelection, hM]
    · have hemp := isEmpty_eq_false_of_ne_nil hM
      have hfil : (fuzzyMatchCategories tsr userInput categories).filter
          (fun p => decide ((70 : ℚ) < p.2)) = [] :=
        List.filter_eq_nil_iff.2
          (fun p hp => by simp only [decide_eq_true_eq, not_lt]; exact hall p hp)
      simp [handleCategorySelection, hemp, hfil]
  · intro h
    simp [handleCategorySelection, h]

/-- Witness for C5: the literal utterance matches the single category at
score 100, so the machine selects it and skips confirmation. -/
theorem c5_category_selection_witness :
    handleCategorySelection (fun _ _ => 0) "i need food".toList ["Food".toList]
      = .select (((fuzzyMatchCategories (fun _ _ => 0) "i need food".toList
          ["Food".toList])).map Prod.fst) :=
  (c5_category_selection_transitions (fun _ _ => 0) "i need food".toList
      ["Food".toList]).1 (by decide) (by decide)

/-! ## event_type phase (`voice_agent.py:279-344`) -/

/-- Result of one `handle_event_type_phase` turn.  `responsePhase` is the
`phase` field of the returned dict, `statePhase` the session's
`voice_state["phase"]` after the handler (it enters as `event_type` and
is only reassigned on the success path, `voice_agent.py:332`;
`handle_error` at `voice_agent.py:841` never touches the state),
`retried` whether the enhanced-prompt retry ran, and `categories` the
top-level people-tree labels of the success response. -/
structure EventTypeStep where
  responsePhase : String
  statePhase : String
  retried : Bool
  categories : List String
deriving DecidableEq, Repr

/-- `handle_event_type_phase` (`voice_agent.py:279-344`), with the
external `TreeAgent` collaborator abstracted to its two possible
generations: `gen1` is the first call (`none` models an exception, which
`voice_agent.py:301-303` converts to an error response) delivering the
top-level labels of (people tree, place tree), and `gen2` the retry
result used only when the first call yields two empty trees
(`voice_agent.py:308-323`). -/
def handleEventType (gen1 : Option (List String × List String))
    (gen2 : List String × List String) : EventTypeStep :=
  match gen1 with
  | none => ⟨"error", "event_type", false, []⟩
  | some (people, place) =>
      if people.isEmpty && place.isEmpty then
        if gen2.1.isEmpty then ⟨"error", "event_type", true, []⟩
        else ⟨"category_selection", "category_selection", true, gen2.1⟩
      else
        if people.isEmpty then ⟨"error", "event_type", false, []⟩
        else ⟨"category_selection", "category_selection", false, people⟩

/-- C6 counterexample.  When the first generation returns an empty people
tree but a non-empty place tree, the handler errors without any retry —
even though the retry (here able to produce the `Food` category) would
have succeeded — contradicting the claim that an empty people tree is
retried once before being treated as fatal. -/
theorem c6_event_type_counterexample :
    (handleEventType (some ([], ["Stage"])) (["Food"], [])).responsePhase = "error"
    ∧ (handleEventType (some ([], ["Stage"])) (["Food"], [])).retried = false := by
  constructor <;> rfl

/-- C6 amended.  The enhanced-prompt retry runs exactly when the first
generation returned two empty trees (not whenever the people tree alone
is empty); the error response is produced exactly when the first call
raised, or the people tree relevant to the taken branch is empty; and
every error response leaves the session phase at `event_type`. -/
theorem c6_event_type_retry (gen1 : Option (List String × List String))
    (gen2 : List String × List String) :
    ((handleEventType gen1 gen2).retried = true ↔ gen1 = some ([], []))
    ∧ ((handleEventType gen1 gen2).responsePhase = "error" →
        (handleEventType gen1 gen2).statePhase = "event_type")
    ∧ (∀ people place, gen1 = some (people, place) → people ≠ [] →
        (handleEventType gen1 gen2).responsePhase = "category_selection"
          ∧ (handleEventType gen1 gen2).categories = people)
    ∧ (gen1 = some ([], []) → gen2.1 ≠ [] →
        (handleEventType gen1 gen2).responsePhase = "category_selection"
          ∧ (handleEventType gen1 gen2).categories = gen2.1)
    ∧ (gen1 = some ([], []) → gen2.1 = [] →
        (handleEventType gen1 gen2).responsePhase = "error"
          ∧ (handleEventType gen1 gen2).retried = true)
    ∧ (∀ place, gen1 = some ([], place) → place ≠ [] →
        (handleEventType gen1 gen2).responsePhase = "error"
          ∧ (handleEventType gen1 gen2).retried = false)
    ∧ (gen1 = none →
        (handleEventType gen1 gen2).responsePhase = "error"
          ∧ (handleEventType gen1 gen2).retried = false) := by
  refine ⟨?_, ?_, ?_, ?_, ?_, ?_, ?_⟩
  · constructor
    · intro h
      match gen1 with
      | none => simp [handleEventType] at h
      | some (people, place) =>
          by_cases hp : people = []
          · by_cases hq : place = []
            · subst hp
              subst hq
              rfl
            · exfalso
              subst hp
              have hqe := isEmpty_eq_false_of_ne_nil hq
              simp [handleEventType, hqe] at h
          · exfalso
            have hpe := isEmpty_eq_false_of_ne_nil hp
            simp [handleEventType, hpe] at h
    · intro h
      subst h
      simp only [handleEventType]
      split
      · split <;> rfl
      · simp_all
  · intro h
    match gen1 with
    | none => rfl
    | some (people, place) =>
        simp only [handleEventType] at h ⊢
        split at h <;> split at h <;> simp_all
  · intro people place h hp
    subst h
    have hpe := isEmpty_eq_false_of_ne_nil hp
    simp [handleEventType, hpe]
  · intro h hg
    subst h
    have hge := isEmpty_eq_false_of_ne_nil hg
    simp [handleEventType, hge]
  · intro h hg
    subst h
    simp [handleEventType, hg]
  · intro place h hp
    subst h
    have hpe := isEmpty_eq_false_of_ne_nil hp
    simp [handleEventType, hpe]
  · intro h
    subst h
    constructor <;> rfl

/-- Witness for C6 (amended): a successful first generation with a
non-empty people tree proceeds to category selection without retry. -/
theorem c6_event_type_retry_witness :
    (handleEventType (some (["Food", "Drinks"], ["Stage"])) ([], [])).responsePhase
        = "category_selection"
    ∧ (handleEventType (some (["Food", "Drinks"], ["Stage"])) ([], [])).categories
        = ["Food", "Drinks"] :=
  (c6_event_type_retry (some (["Food", "Drinks"], ["Stage"])) ([], [])).2.2.1
    ["Food", "Drinks"] ["Stage"] rfl (by decide)

/-! ## Claim theorems for QuantityInferencer and extract_yes_no -/

/-- C7.  The inferred quantity is always an integer at least 1; it is 1
when no attendee count is known; for a known positive attendee count the
base is the attendee count when the name is consumable or per-person
(else 1), and a consumable item with a known duration is multiplied by
`max 1 ⌈duration / 4⌉`; in particular Bottled Water for 50 attendees
over 8 hours gives 100 and Folding Table gives 1. -/
theorem c7_infer_quantity :
    (∀ (item : List Char) (d : Option ℚ), inferAmount item none d = 1)
    ∧ (∀ (item : List Char) (a : Option ℕ) (d : Option ℚ), 1 ≤ inferAmount item a d)
    ∧ (∀ (item : List Char) (a : ℕ) (d : ℚ), 0 < a →
        inferAmount item (some a) (some d)
          = (if hasPerPersonPhrase (pyLower item) || isConsumable (pyLower item)
              then (a : ℤ) else 1)
            * (if isConsumable (pyLower item) then max 1 ⌈d / 4⌉ else 1))
    ∧ (∀ (item : List Char) (a : ℕ), 0 < a →
        inferAmount item (some a) none
          = (if hasPerPersonPhrase (pyLower item) || isConsumable (pyLower item)
              then (a : ℤ) else 1))
    ∧ inferAmount "Bottled Water".toList (some 50) (some 8) = 100
    ∧ inferAmount "Folding Table".toList (some 50) (some 8) = 1 := by
  have hbase : ∀ (item : List Char) (a : ℕ), a ≠ 0 →
      (1 : ℤ) ≤ (if hasPerPersonPhrase (pyLower item) || isConsumable (pyLower item)
        then (a : ℤ) else 1) := by
    intro item a ha
    split
    · exact_mod_cast Nat.one_le_iff_ne_zero.2 ha
    · exact le_refl 1
  refine ⟨?_, ?_, ?_, ?_, by decide, by decide⟩
  · intro item d
    rfl
  · intro item a d
    match a, d with
    | none, _ => simp [inferAmount]
    | some n, none =>
        by_cases h0 : n = 0
        · simp [inferAmount, h0]
        · simp only [inferAmount, if_neg h0]
          exact hbase item n h0
    | some n, some dd =>
        by_cases h0 : n = 0
        · simp [inferAmount, h0]
        · simp only [inferAmount, if_neg h0]
          have hb := hbase item n h0
          split
          · have hm : (1 : ℤ) ≤ max 1 (ceilDiv4 dd) := le_max_left 1 _
            calc (1 : ℤ) = 1 * 1 := by ring
              _ ≤ _ := mul_le_mul hb hm zero_le_one (le_trans zero_le_one hb)
          · exact hb
  · intro item a d h0
    have ha := Nat.pos_iff_ne_zero.1 h0
    simp only [inferAmount, if_neg ha]
    rw [← ceilDiv4_eq d]
    by_cases hc : isConsumable (pyLower item)
    · by_cases hd : d = 0
      · subst hd
        have hz : ceilDiv4 0 = 0 := by decide
        simp [hc, hz]
      · have hne : (d == (0 : ℚ)) = false := beq_eq_false_iff_ne.2 hd
        simp [hc, hne]
    · simp [hc]
  · intro item a h0
    have ha := Nat.pos_iff_ne_zero.1 h0
    simp only [inferAmount, if_neg ha]

/-- Witness for C7 at the Bottled Water example, attendee count 50. -/
theorem c7_infer_quantity_witness :
    inferAmount "Bottled Water".toList (some 50) (some 8)
      = (if hasPerPersonPhrase (pyLower "Bottled Water".toList)
            || isConsumable (pyLower "Bottled Water".toList)
          then (50 : ℤ) else 1)
        * (if isConsumable (pyLower "Bottled Water".toList)
            then max 1 ⌈(8 : ℚ) / 4⌉ else 1) :=
  c7_infer_quantity.2.2.1 "Bottled Water".toList 50 8 (by decide)

/-- C10.  `extract_yes_no` checks positive keywords before negative
ones, so any input containing a positive keyword as a substring returns
yes, regardless of negative words; in particular the single word
`incorrect` — although listed as a negative keyword — contains `correct`
and is read as yes. -/
theorem c10_incorrect_reads_as_yes :
    (∀ s : List Char,
      (posKeywords.any (fun w => containsSub w (pyStrip (pyLower s)))) = true →
      extractYesNo s = some true)
    ∧ "incorrect".toList ∈ negKeywords
    ∧ containsSub "correct".toList (pyStrip (pyLower "incorrect".toList)) = true
    ∧ extractYesNo "incorrect".toList = some true := by
  refine ⟨?_, by decide, by decide, by decide⟩
  intro s h
  simp [extractYesNo, h]

/-- Witness for C10 at the word `incorrect` itself. -/
theorem c10_incorrect_reads_as_yes_witness :
    extractYesNo "incorrect".toList = some true :=
  c10_incorrect_reads_as_yes.1 "incorrect".toList (by decide)

/-! ## NumberNormalizer (`voice_agent.py:161-199`) -/

/-- The `word_to_num` mapping (`voice_agent.py:164-172`), with the digit
strings stored as their numeric values (`natToStr` reproduces the map's
string values exactly). -/
def wordToNum : List (List Char × ℕ) :=
  [("zero".toList, 0), ("one".toList, 1), ("two".toList, 2), ("three".toList, 3),
   ("four".toList, 4), ("five".toList, 5), ("six".toList, 6), ("seven".toList, 7),
   ("eight".toList, 8), ("nine".toList, 9), ("ten".toList, 10),
   ("eleven".toList, 11), ("twelve".toList, 12), ("thirteen".toList, 13),
   ("fourteen".toList, 14), ("fifteen".toList, 15), ("sixteen".toList, 16),
   ("seventeen".toList, 17), ("eighteen".toList, 18), ("nineteen".toList, 19),
   ("twenty".toList, 20), ("thirty".toList, 30), ("forty".toList, 40),
   ("fifty".toList, 50), ("sixty".toList, 60), ("seventy".toList, 70),
   ("eighty".toList, 80), ("ninety".toList, 90), ("hundred".toList, 100),
   ("thousand".toList, 1000)]

/-- Numeric value of a recognised number word (`word in word_to_num`). -/
def w2n (w : List Char) : Option ℕ := List.lookup w wordToNum

/-- Whether the last emitted token (head of the reversed accumulator) is
a digit string — Python's `i > 0 and result and result[-1].isdigit()`,
noting that the accumulator is non-empty exactly when `i > 0` and
`result` is non-empty. -/
def headIsDigit : List (List Char) → Bool
  | [] => false
  | r :: _ => pyIsDigit r

/-- The `while i < len(words)` loop of `words_to_numbers`
(`voice_agent.py:178-197`); `acc` is the `result` list in reverse. -/
def wtnGo : List (List Char) → List (List Char) → List (List Char)
  | acc, [] => acc.reverse
  | acc, [w] =>
    match w2n w with
    | none => wtnGo (w :: acc) []
    | some v =>
      if w == "hundred".toList && headIsDigit acc then
        wtnGo (natToStr (pyParseNat (acc.headD []) * 100) :: acc.tail) []
      else if w == "thousand".toList && headIsDigit acc then
        wtnGo (natToStr (pyParseNat (acc.headD []) * 1000) :: acc.tail) []
      else wtnGo (natToStr v :: acc) []
  | acc, w :: next :: rest2 =>
    match w2n w with
    | none => wtnGo (w :: acc) (next :: rest2)
    | some v =>
      if w == "hundred".toList && headIsDigit acc then
        wtnGo (natToStr (pyParseNat (acc.headD []) * 100) :: acc.tail) (next :: rest2)
      else if w == "thousand".toList && headIsDigit acc then
        wtnGo (natToStr (pyParseNat (acc.headD []) * 1000) :: acc.tail) (next :: rest2)
      else
        match w2n next with
        | some u =>
            if u < 10 then wtnGo (natToStr (v + u) :: acc) rest2
            else wtnGo (natToStr v :: acc) (next :: rest2)
        | none => wtnGo (natToStr v :: acc) (next :: rest2)

/-- `words_to_numbers(text)` (`voice_agent.py:161`): lower-case, split on
whitespace, run the conversion loop, re-join with single spaces. -/
def wordsToNumbers (text : List Char) : List Char :=
  joinSpace (wtnGo [] (pySplit (pyLower text)))

example : wordsToNumbers "twenty five guests".toList = "25 guests".toList := by decide
example : wordsToNumbers "two hundred people".toList = "200 people".toList := by decide
example : wordsToNumbers "Hello there".toList = "hello there".toList := by decide

theorem digitChar_isDigit {k : ℕ} (h : k < 10) : (digitChar k).isDigit = true := by
  interval_cases k <;> decide

theorem natToStrCore_digits (fuel : ℕ) :
    ∀ (m : ℕ), ∀ c ∈ natToStrCore fuel m, c.isDigit = true := by
  induction fuel with
  | zero =>
      intro m c hc
      simp [natToStrCore] at hc
  | succ f ih =>
      intro m c hc
      match m with
      | 0 => simp [natToStrCore] at hc
      | k + 1 =>
          simp only [natToStrCore] at hc
          rcases List.mem_append.1 hc with h1 | h1
          · exact ih _ c h1
          · have hc2 : c = digitChar ((k + 1) % 10) := by simpa using h1
            rw [hc2]
            exact digitChar_isDigit (Nat.mod_lt _ (by norm_num))

theorem pyIsDigit_natToStr (n : ℕ) : pyIsDigit (natToStr n) = true := by
  match n with
  | 0 => decide
  | k + 1 =>
      rw [natToStr, if_neg (Nat.succ_ne_zero k), pyIsDigit, Bool.and_eq_true]
      constructor
      · simp [natToStrCore]
      · rw [List.all_eq_true]
        intro c hc
        exact natToStrCore_digits (k + 1) (k + 1) c hc

/-- A token neither recognised as a number word nor already a digit
string: these are exactly the tokens the conversion loop must copy
through verbatim. -/
def alienTok (w : List Char) : Bool := (w2n w).isNone && !pyIsDigit w

/-- The non-numeric tokens of a token stream, in order. -/
def filterAlien (l : List (List Char)) : List (List Char) := l.filter alienTok

theorem alienTok_mapped {w : List Char} {v : ℕ} (h : w2n w = some v) :
    alienTok w = false := by
  simp [alienTok, h]

theorem alienTok_mapped_beq {w m : List Char} {v : ℕ} (hm : w2n m = some v)
    (h : (w == m) = true) : alienTok w = false := by
  have : w = m := by simpa using h
  rw [this]
  exact alienTok_mapped hm

theorem alienTok_digit {w : List Char} (h : pyIsDigit w = true) :
    alienTok w = false := by
  simp [alienTok, h]

theorem w2n_hundred : w2n "hundred".toList = some 100 := by decide

theorem w2n_thousand : w2n "thousand".toList = some 1000 := by decide

theorem filterAlien_rev_cons (x : List Char) (l : List (List Char)) :
    filterAlien (x :: l).reverse = filterAlien l.reverse ++ filterAlien [x] := by
  rw [List.reverse_cons]
  simp [filterAlien, List.filter_append]

theorem filterAlien_cons_split (w : List Char) (l : List (List Char)) :
    filterAlien (w :: l) = filterAlien [w] ++ filterAlien l := by
  cases hx : alienTok w <;> simp [filterAlien, List.filter_cons, hx]

theorem wtnGo_filter (n : ℕ) : ∀ (ts acc : List (List Char)), ts.length ≤ n →
    filterAlien (wtnGo acc ts) = filterAlien acc.reverse ++ filterAlien ts := by
  induction n with
  | zero =>
      intro ts acc hlen
      match ts with
      | [] => simp [wtnGo, filterAlien]
      | w :: rest => simp at hlen
  | succ n ih =>
      intro ts acc hlen
      have hbase : ∀ (x : List Char) (acc2 : List (List Char)), alienTok x = false →
          filterAlien (x :: acc2).reverse = filterAlien acc2.reverse := by
        intro x acc2 hx
        rw [filterAlien_rev_cons]
        simp [filterAlien, List.filter_cons, hx]
      have hcons_f : ∀ (x : List Char) (l : List (List Char)), alienTok x = false →
          filterAlien (x :: l) = filterAlien l := by
        intro x l hx
        simp [filterAlien, List.filter_cons, hx]
      match ts with
      | [] => simp [wtnGo, filterAlien]
      | [w] =>
          cases hw : w2n w with
          | none =>
              simp only [wtnGo, hw]
              rw [filterAlien_rev_cons]
          | some v =>
              simp only [wtnGo, hw]
              by_cases h100 : (w == "hundred".toList && headIsDigit acc) = true
              · have h100c := h100
                rw [Bool.and_eq_true] at h100c
                obtain ⟨hweq, hdig⟩ := h100c
                match acc with
                | [] => simp [headIsDigit] at hdig
                | r :: acc2 =>
                    have hr : pyIsDigit r = true := by simpa [headIsDigit] using hdig
                    rw [if_pos h100]
                    simp only [List.headD_cons, List.tail_cons]
                    rw [hbase _ _ (alienTok_digit (pyIsDigit_natToStr _)),
                        hbase _ _ (alienTok_digit hr),
                        hcons_f _ _ (alienTok_mapped hw)]
                    simp [filterAlien]
              · rw [if_neg h100]
                by_cases h1000 : (w == "thousand".toList && headIsDigit acc) = true
                · have h1000c := h1000
                  rw [Bool.and_eq_true] at h1000c
                  obtain ⟨hweq, hdig⟩ := h1000c
                  match acc with
                  | [] => simp [headIsDigit] at hdig
                  | r :: acc2 =>
                      have hr : pyIsDigit r = true := by simpa [headIsDigit] using hdig
                      rw [if_pos h1000]
                      simp only [List.headD_cons, List.tail_cons]
                      rw [hbase _ _ (alienTok_digit (pyIsDigit_natToStr _)),
                          hbase _ _ (alienTok_digit hr),
                          hcons_f _ _ (alienTok_mapped hw)]
                      simp [filterAlien]
                · rw [if_neg h1000]
                  rw [hbase _ _ (alienTok_digit (pyIsDigit_natToStr _)),
                      hcons_f _ _ (alienTok_mapped hw)]
                  simp [filterAlien]
      | w :: next :: rest2 =>
          have hlen2 : (next :: rest2).length ≤ n := by
            simpa using Nat.le_of_succ_le_succ hlen
          have hlen3 : rest2.length ≤ n := le_trans (by simp) hlen2
          cases hw : w2n w with
          | none =>
              simp only [wtnGo, hw]
              rw [ih (next :: rest2) (w :: acc) hlen2, filterAlien_rev_cons,
                  filterAlien_cons_split w (next :: rest2), List.append_assoc]
          | some v =>
              simp only [wtnGo, hw]
              by_cases h100 : (w == "hundred".toList && headIsDigit acc) = true
              · have h100c := h100
                rw [Bool.and_eq_true] at h100c
                obtain ⟨hweq, hdig⟩ := h100c
                match acc with
                | [] => simp [headIsDigit] at hdig
                | r :: acc2 =>
                    have hr : pyIsDigit r = true := by simpa [headIsDigit] using hdig
                    rw [if_pos h100]
                    simp only [List.headD_cons, List.tail_cons]
                    rw [ih (next :: rest2) _ hlen2,
                        hbase _ _ (alienTok_digit (pyIsDigit_natToStr _)),
                        hbase _ _ (alienTok_digit hr),
                        filterAlien_cons_split w (next :: rest2),
                        hcons_f _ _ (alienTok_mapped hw)]
                    simp [filterAlien]
              · rw [if_neg h100]
                by_cases h1000 : (w == "thousand".toList && headIsDigit acc) = true
                · have h1000c := h1000
                  rw [Bool.and_eq_true] at h1000c
                  obtain ⟨hweq, hdig⟩ := h1000c
                  match acc with
                  | [] => simp [headIsDigit] at hdig
                  | r :: acc2 =>
                      have hr : pyIsDigit r = true := by simpa [headIsDigit] using hdig
                      rw [if_pos h1000]
                      simp only [List.headD_cons, List.tail_cons]
                      rw [ih (next :: rest2) _ hlen2,
                          hbase _ _ (alienTok_digit (pyIsDigit_natToStr _)),
                          hbase _ _ (alienTok_digit hr),
                          filterAlien_cons_split w (next :: rest2),
                          hcons_f _ _ (alienTok_mapped hw)]
                      simp [filterAlien]
                · rw [if_neg h1000]
                  cases hn : w2n next with
                  | some u =>
                      dsimp only
                      by_cases hu : u < 10
                      · rw [if_pos hu]
                        rw [ih rest2 _ hlen3,
                            hbase _ _ (alienTok_digit (pyIsDigit_natToStr _)),
                            filterAlien_cons_split w (next :: rest2),
                            hcons_f _ _ (alienTok_mapped hw),
                            filterAlien_cons_split next rest2,
                            hcons_f _ _ (alienTok_mapped hn)]
                        simp [filterAlien]
                      · rw [if_neg hu]
                        rw [ih (next :: rest2) _ hlen2,
                            hbase _ _ (alienTok_digit (pyIsDigit_natToStr _)),
                            filterAlien_cons_split w (next :: rest2),
                            hcons_f _ _ (alienTok_mapped hw)]
                        simp [filterAlien]
                  | none =>
                      dsimp only
                      rw [ih (next :: rest2) _ hlen2,
                          hbase _ _ (alienTok_digit (pyIsDigit_natToStr _)),
                          filterAlien_cons_split w (next :: rest2),
                          hcons_f _ _ (alienTok_mapped hw)]
                      simp [filterAlien]

/-- The tens words (twenty through ninety) of `word_to_num`. -/
def tensWords : List (List Char × ℕ) :=
  [("twenty".toList, 20), ("thirty".toList, 30), ("forty".toList, 40),
   ("fifty".toList, 50), ("sixty".toList, 60), ("seventy".toList, 70),
   ("eighty".toList, 80), ("ninety".toList, 90)]

/-- C8 counterexample.  `Hello` is a non-numeric token, yet the
normalizer returns it lower-cased: non-numeric tokens are not preserved
unchanged for every input string. -/
theorem c8_normalizer_counterexample :
    wordsToNumbers "Hello there".toList = "hello there".toList
    ∧ wordsToNumbers "Hello there".toList ≠ "Hello there".toList := by
  constructor <;> decide

/-- C8 amended.  Over the lower-cased, whitespace-split token stream the
conversion loop preserves every token that is neither a number word nor
a digit string (in order); a `hundred`/`thousand` following a digit
token multiplies that token by 100/1000; any number word other than
`hundred`/`thousand` followed by a units word below ten (in particular
every tens word) is combined into a single number token consuming both
words; and `twenty five guests` normalizes to `25 guests`. -/
theorem c8_number_normalizer (text : List Char) :
    (wordsToNumbers text = joinSpace (wtnGo [] (pySplit (pyLower text))))
    ∧ (∀ ts : List (List Char), filterAlien (wtnGo [] ts) = filterAlien ts)
    ∧ (∀ (r : List Char) (acc rest : List (List Char)), pyIsDigit r = true →
        wtnGo (r :: acc) ("hundred".toList :: rest)
          = wtnGo (natToStr (pyParseNat r * 100) :: acc) rest)
    ∧ (∀ (r : List Char) (acc rest : List (List Char)), pyIsDigit r = true →
        wtnGo (r :: acc) ("thousand".toList :: rest)
          = wtnGo (natToStr (pyParseNat r * 1000) :: acc) rest)
    ∧ (∀ (w : List Char) (v : ℕ), w2n w = some v →
        (w == "hundred".toList) = false → (w == "thousand".toList) = false →
        ∀ (acc : List (List Char)) (next : List Char) (rest2 : List (List Char)) (u : ℕ),
        w2n next = some u → u < 10 →
        wtnGo acc (w :: next :: rest2) = wtnGo (natToStr (v + u) :: acc) rest2)
    ∧ (∀ wv ∈ tensWords, w2n wv.1 = some wv.2
        ∧ (wv.1 == "hundred".toList) = false ∧ (wv.1 == "thousand".toList) = false)
    ∧ wordsToNumbers "twenty five guests".toList = "25 guests".toList := by
  refine ⟨rfl, ?_, ?_, ?_, ?_, by decide, by decide⟩
  · intro ts
    have h := wtnGo_filter ts.length ts [] (le_refl _)
    simpa [filterAlien] using h
  · intro r acc rest h
    have hc : ("hundred".toList == "hundred".toList && headIsDigit (r :: acc)) = true := by
      rw [Bool.and_eq_true]
      exact ⟨by decide, by simpa [headIsDigit] using h⟩
    cases rest with
    | nil =>
        simp only [wtnGo, w2n_hundred]
        rw [if_pos hc]
        simp only [List.headD_cons, List.tail_cons]
    | cons nx rs =>
        simp only [wtnGo, w2n_hundred]
        rw [if_pos hc]
        simp only [List.headD_cons, List.tail_cons]
  · intro r acc rest h
    have hc : ("thousand".toList == "thousand".toList && headIsDigit (r :: acc)) = true := by
      rw [Bool.and_eq_true]
      exact ⟨by decide, by simpa [headIsDigit] using h⟩
    have hc100 : ("thousand".toList == "hundred".toList && headIsDigit (r :: acc)) = false := by
      rw [show ("thousand".toList == "hundred".toList) = false from by decide,
        Bool.false_and]
    cases rest with
    | nil =>
        simp only [wtnGo, w2n_thousand, hc100, Bool.false_eq_true, if_false]
        rw [if_pos hc]
        simp only [List.headD_cons, List.tail_cons]
    | cons nx rs =>
        simp only [wtnGo, w2n_thousand, hc100, Bool.false_eq_true, if_false]
        rw [if_pos hc]
        simp only [List.headD_cons, List.tail_cons]
  · intro w v hw hw100 hw1000 acc next rest2 u hnext hu
    simp only [wtnGo, hw, hw100, hw1000, Bool.false_and, Bool.false_eq_true,
      if_false, hnext]
    rw [if_pos hu]

/-- Witness for C8 (amended): the tens-word compound rule applied to
`twenty one` at the head of the stream. -/
theorem c8_number_normalizer_witness :
    wtnGo [] ("twenty".toList :: "one".toList :: [])
      = wtnGo (natToStr (20 + 1) :: []) [] :=
  (c8_number_normalizer []).2.2.2.2.1 "twenty".toList 20 (by decide) (by decide)
    (by decide) [] "one".toList [] 1 (by decide) (by decide)

/-! ## check_retailer_sponsorship (`tools/implementations.py:174-304`)

The only randomness source in the source function is
`_stable_rng(seed_text)`: a `random.Random` seeded from the SHA-256 hash
of `seed_text` (`implementations.py:174-177`).  SHA-256 and the Mersenne
Twister are external library code, modelled by the abstract generator
parameter `gen : String → ℕ → ℕ` giving the stream of raw draws for a
given seed text; the exact number of raw draws consumed by
`sample`/`choice` differs from CPython, but every draw is a pure function
of the seed text, which is what the proved properties use.  The `items`
argument arrives as a JSON string produced by the caller; it is modelled
already parsed into its `(item, id)` entries, with the JSON round-trip
rendered back by `jsonItems` for the seed text. -/

/-- One parsed entry of the `items` JSON argument. -/
structure ItemEntry where
  item : String
  itemId : Option String
deriving DecidableEq, Repr

instance : Inhabited ItemEntry := ⟨⟨"", none⟩⟩

/-- The normalisation loop of `check_retailer_sponsorship`
(`implementations.py:224-238`): strip each name, drop empties. -/
def normalizeItems (items : List ItemEntry) : List ItemEntry :=
  items.filterMap (fun e =>
    let name := String.mk (pyStrip e.item.data)
    if name.isEmpty then none else some ⟨name, e.itemId⟩)

/-- `json.dumps` of one normalised entry (escaping of special characters
inside names is not modelled). -/
def jsonEntry (e : ItemEntry) : String :=
  "\x7b\"item\": \"" ++ e.item ++ "\", \"id\": "
    ++ (match e.itemId with
        | none => "null"
        | some i => "\"" ++ i ++ "\"")
    ++ "\x7d"

/-- `json.dumps(normalized_items)` with the default separators. -/
def jsonItems (l : List ItemEntry) : String :=
  "[" ++ String.intercalate ", " (l.map jsonEntry) ++ "]"

/-- The seed text `f"{retailer}|{json.dumps(normalized_items)}|{event_context}"`
(`implementations.py:240`). -/
def seedText (retailer : String) (normalized : List ItemEntry) (ctx : String) : String :=
  retailer ++ "|" ++ jsonItems normalized ++ "|" ++ ctx

/-- State of the seeded generator: the seed text and the number of raw
draws consumed so far. -/
structure RngState where
  seed : String
  counter : ℕ
deriving DecidableEq, Repr

/-- Draw one raw value from the abstract seeded generator. -/
def rngNext (gen : String → ℕ → ℕ) (st : RngState) : ℕ × RngState :=
  (gen st.seed st.counter, ⟨st.seed, st.counter + 1⟩)

/-- `rng.random()`: a rational in `[0, 1)` from one raw draw. -/
def rngFloat (gen : String → ℕ → ℕ) (st : RngState) : ℚ × RngState :=
  let (n, st2) := rngNext gen st
  (((n % 2 ^ 53 : ℕ) : ℚ) / ((2 ^ 53 : ℕ) : ℚ), st2)

/-- `rng.choice` on a list of length `len`: an index below `len` from one
raw draw. -/
def rngChoiceIdx (gen : String → ℕ → ℕ) (st : RngState) (len : ℕ) : ℕ × RngState :=
  let (n, st2) := rngNext gen st
  (n % len, st2)

/-- Remove the element at position `i`. -/
def removeAt (xs : List ItemEntry) (i : ℕ) : List ItemEntry :=
  xs.take i ++ xs.drop (i + 1)

/-- `rng.sample(xs, k)`: `k` distinct elements drawn without replacement,
one index draw per element. -/
def rngSample (gen : String → ℕ → ℕ) :
    RngState → ℕ → List ItemEntry → List ItemEntry × RngState
  | st, 0, _ => ([], st)
  | st, k + 1, xs =>
      if xs.isEmpty then ([], st)
      else
        let (i, st2) := rngChoiceIdx gen st xs.length
        let (tail, st3) := rngSample gen st2 k (removeAt xs i)
        (xs.getD i default :: tail, st3)

/-- The keyword table of `_extract_event_type` (`implementations.py:182-194`)
in Python dict insertion order. -/
def eventTypeKeywords : List (List Char × String) :=
  [("wedding".toList, "wedding"), ("birthday".toList, "birthday party"),
   ("conference".toList, "conference"), ("meetup".toList, "meetup"),
   ("office".toList, "office event"), ("corporate".toList, "corporate event"),
   ("festival".toList, "festival"), ("sports".toList, "sports event"),
   ("kids".toList, "kids event"), ("school".toList, "school event"),
   ("outdoor".toList, "outdoor event")]

/-- `_extract_event_type(event_context)` (`implementations.py:180`): first
keyword contained in the lower-cased context, else `community event`. -/
def extractEventType (ctx : String) : String :=
  match eventTypeKeywords.find? (fun p => containsSub p.1 (pyLower ctx.data)) with
  | some p => p.2
  | none => "community event"

/-- Search loop modelling the regex `address:\s*([^.\n]+)` with
`re.IGNORECASE` (`implementations.py:202`): at each position where
`address:` matches case-insensitively, skip whitespace and capture up to
the next period or newline; the exotic backtracking case in which the
captured group consists of whitespace only is not distinguished (the
search continues instead). -/
def extractLocationGo : List Char → Option (List Char)
  | [] => none
  | c :: rest =>
      if ((c :: rest).take 8).map Char.toLower == "address:".toList then
        let after := (c :: rest).drop 8
        let body := (after.dropWhile Char.isWhitespace).takeWhile
          (fun ch => ch != '.' && ch != '\n')
        if body.isEmpty then extractLocationGo rest else some (pyStrip body)
      else extractLocationGo rest

/-- `_extract_location(event_context)` (`implementations.py:201`). -/
def extractLocation (ctx : String) : String :=
  match extractLocationGo ctx.data with
  | some l => String.mk l
  | none => "the venue"

/-- The approval reason pool (`implementations.py:248-256`). -/
def approveReasons (eventType location : String) : List String :=
  ["We can support the " ++ eventType ++ " in " ++ location ++ " with a targeted promo.",
   "This " ++ eventType ++ " in " ++ location ++ " aligns with our local outreach goals.",
   "Seasonal demand in " ++ location ++ " makes this " ++ eventType ++ " a good fit.",
   "Our regional marketing plan includes events like this " ++ eventType ++ " in " ++ location ++ ".",
   "Partnering on this " ++ eventType ++ " in " ++ location ++ " fits our community engagement focus.",
   "Projected attendance in " ++ location ++ " makes this " ++ eventType ++ " a strong match.",
   "This " ++ eventType ++ " helps us showcase new inventory in " ++ location ++ "."]

/-- The rejection reason pool (`implementations.py:257-265`). -/
def rejectReasons (eventType location : String) : List String :=
  ["Our local budget for " ++ location ++ " is already allocated this month.",
   "Inventory constraints in " ++ location ++ " limit support for this " ++ eventType ++ ".",
   "We cannot sponsor this " ++ eventType ++ " due to delivery capacity in " ++ location ++ ".",
   "Compliance limits prevent sponsorships for this " ++ eventType ++ " in " ++ location ++ ".",
   "Current vendor commitments in " ++ location ++ " restrict additional sponsorships.",
   "The event timing in " ++ location ++ " overlaps with an internal campaign freeze.",
   "We are prioritizing different categories for " ++ eventType ++ " in " ++ location ++ "."]

/-- `list(range(5, 55, 5))` (`implementations.py:278`). -/
def percentSteps : List ℕ := [5, 10, 15, 20, 25, 30, 35, 40, 45, 50]

/-- The per-item discount loop (`implementations.py:284-294`): a fresh
`rng.choice(percent_steps)` draw for every discounted item (in normalised
order), percent 0 for the rest. -/
def assignPercents (gen : String → ℕ → ℕ) :
    RngState → List ItemEntry → List String → List DiscountEntry × RngState
  | st, [], _ => ([], st)
  | st, e :: rest, names =>
      if names.contains e.item then
        let (i, st2) := rngChoiceIdx gen st percentSteps.length
        let percent := percentSteps.getD i 0
        let (tail, st3) := assignPercents gen st2 rest names
        (⟨e.item, e.itemId, percent⟩ :: tail, st3)
      else
        let (tail, st2) := assignPercents gen st rest names
        (⟨e.item, e.itemId, 0⟩ :: tail, st2)

/-- The body of `check_retailer_sponsorship` after seeding
(`implementations.py:241-304`), driven entirely by the seed text.
`round(len * 0.2)` is computed exactly as `(2 * len + 5) / 10` in
natural-number division — the fractional part of `len / 5` is never one
half, so Python's bankers rounding agrees.  `int(sum / len)` is
truncation of a non-negative value, i.e. natural-number division. -/
def checkFromSeed (gen : String → ℕ → ℕ) (seed : String) (retailer : String)
    (normalized : List ItemEntry) (ctx : String) : Offer :=
  let st0 : RngState := ⟨seed, 0⟩
  let eventType := extractEventType ctx
  let location := extractLocation ctx
  let (rv, st1) := rngFloat gen st0
  if rv ≤ (0.35 : ℚ) then
    let (ri, _) := rngChoiceIdx gen st1 (rejectReasons eventType location).length
    { retailer := retailer, status := "rejected",
      reason := (rejectReasons eventType location).getD ri "",
      discountPercent := none, discountedItems := [] }
  else
    let items := if normalized.isEmpty then [⟨"general supplies", none⟩] else normalized
    let targetCount := min (max 1 ((2 * items.length + 5) / 10)) items.length
    let (sampled, st2) := rngSample gen st1 targetCount items
    let discountedNames := sampled.map ItemEntry.item
    let (discounted, st3) := assignPercents gen st2 items discountedNames
    let overall := ((discounted.map DiscountEntry.percent).sum) / discounted.length
    let (ai, _) := rngChoiceIdx gen st3 (approveReasons eventType location).length
    { retailer := retailer, status := "approved",
      reason := (approveReasons eventType location).getD ai "",
      discountPercent := some (overall : ℤ), discountedItems := discounted }

/-- `check_retailer_sponsorship(retailer, items, event_context)`
(`implementations.py:208-304`).  `ambient` models all process-global
mutable state a Python function could consult (the global `random`
module state, the clock); the source never reads any of it, so the
translation ignores the parameter — which is exactly what claim C4
asserts. -/
def checkRetailerSponsorship (gen : String → ℕ → ℕ) (ambient : ℕ)
    (retailer : String) (items : List ItemEntry) (eventContext : String) : Offer :=
  checkFromSeed gen (seedText retailer (normalizeItems items) eventContext)
    retailer (normalizeItems items) eventContext

/-- C4.  The sponsorship decision is a pure function of
`(retailer, items, event_context)`: its result is unchanged under any
change of ambient process state, and it factors through the seed text
built from exactly those three inputs — the only source of randomness is
the generator seeded from that text. -/
theorem c4_sponsorship_deterministic (gen : String → ℕ → ℕ) (w1 w2 : ℕ)
    (retailer : String) (items : List ItemEntry) (ctx : String) :
    checkRetailerSponsorship gen w1 retailer items ctx
        = checkRetailerSponsorship gen w2 retailer items ctx
    ∧ checkRetailerSponsorship gen w1 retailer items ctx
        = checkFromSeed gen (seedText retailer (normalizeItems items) ctx)
            retailer (normalizeItems items) ctx :=
  ⟨rfl, rfl⟩

/-- Witness for C4: a concrete generator and concrete inputs evaluated
under two different ambient states give the same offer. -/
theorem c4_sponsorship_deterministic_witness :
    checkRetailerSponsorship (fun _ n => n) 0 "RetailA"
        [⟨"Bottled Water", some "items.csv:3"⟩] "Address: 5 Main St. Birthday"
      = checkRetailerSponsorship (fun _ n => n) 99 "RetailA"
        [⟨"Bottled Water", some "items.csv:3"⟩] "Address: 5 Main St. Birthday" :=
  (c4_sponsorship_deterministic (fun _ n => n) 0 99 "RetailA"
      [⟨"Bottled Water", some "items.csv:3"⟩] "Address: 5 Main St. Birthday").1
